import Mathlib

/-!
# Verification of the openapi-cli request compiler and schema extractor

A shallow embedding, in Lean 4, of the Go sources of `openapi-cli`:
`pkg/openapi/run.go` (request compilation: path/query/header/cookie
parameter serialization and body encoding) and the `pkg/openapi`
package's `GetSchema`/`parseServer` (schema extraction and server
resolution).  Go maps whose iteration order the program observes
(`Paths`, `Operations`, `Content`, `Variables`, JSON object fields) are
modelled as association lists in document order, which is one
determinization of Go's unspecified map order; fallible Go code
returning `error` is modelled with `Except String`, carrying the same
message strings the source builds with `fmt.Errorf`.
-/

namespace OpenAPICli

/-- JSON values as surfaced by the `gjson` library used in `run.go`.
Numbers are modelled as integers (the claims under verification only
exercise string members); object fields keep document order. -/
inductive JValue : Type where
  | null : JValue
  | bool : Bool → JValue
  | num : Int → JValue
  | str : String → JValue
  | arr : List JValue → JValue
  | obj : List (String × JValue) → JValue
deriving Repr, BEq

/-- A JSON string literal body, escaping quotes and backslashes (a
compact re-serialization standing in for `gjson.Result.Raw`, which is
the original source text of the value). -/
def jsonEscape (s : String) : String :=
  s.data.foldl
    (fun acc c =>
      if c = '"' then acc ++ "\\\""
      else if c = '\\' then acc ++ "\\\\"
      else acc ++ String.singleton c) ""

mutual

/-- Compact JSON re-serialization, modelling `gjson.Result.Raw` for the
tree-shaped values this program reads out of its argument payload. -/
def JValue.raw : JValue → String
  | .null => "null"
  | .bool b => if b then "true" else "false"
  | .num n => toString n
  | .str s => "\"" ++ jsonEscape s ++ "\""
  | .arr items => "[" ++ JValue.rawItems items ++ "]"
  | .obj fields => "\x7b" ++ JValue.rawFields fields ++ "\x7d"

/-- Comma-joined serialization of array elements (helper of `JValue.raw`). -/
def JValue.rawItems : List JValue → String
  | [] => ""
  | [v] => JValue.raw v
  | v :: rest => JValue.raw v ++ "," ++ JValue.rawItems rest

/-- Comma-joined serialization of object fields (helper of `JValue.raw`). -/
def JValue.rawFields : List (String × JValue) → String
  | [] => ""
  | [(k, v)] => "\"" ++ jsonEscape k ++ "\":" ++ JValue.raw v
  | (k, v) :: rest =>
      "\"" ++ jsonEscape k ++ "\":" ++ JValue.raw v ++ "," ++ JValue.rawFields rest

end

/-- `gjson.Result.String()`: strings unwrap, booleans print `true`/`false`,
`null` prints empty, numbers print decimally, arrays and objects print
their raw JSON. -/
def JValue.goString : JValue → String
  | .null => ""
  | .bool b => if b then "true" else "false"
  | .num n => toString n
  | .str s => s
  | v => v.raw

/-- The argument payload: the parsed top-level JSON object of the `args`
string handed to `Run` (a flat JSON object per the Argument Schema). -/
abbrev Args := List (String × JValue)

/-- `gjson.Get(input, name)` for the plain member names this program
uses: first-match lookup of a top-level key; `none` models
`res.Exists() == false`. -/
def gjsonGet (input : Args) (name : String) : Option JValue :=
  match input with
  | [] => none
  | (k, v) :: rest => if k == name then some v else gjsonGet rest name

/-- UTF-8 encoding of one character, as Go strings store text. -/
def utf8Bytes (c : Char) : List Nat :=
  let n := c.toNat
  if n < 0x80 then [n]
  else if n < 0x800 then [0xC0 ||| (n >>> 6), 0x80 ||| (n &&& 0x3F)]
  else if n < 0x10000 then
    [0xE0 ||| (n >>> 12), 0x80 ||| ((n >>> 6) &&& 0x3F), 0x80 ||| (n &&& 0x3F)]
  else
    [0xF0 ||| (n >>> 18), 0x80 ||| ((n >>> 12) &&& 0x3F),
     0x80 ||| ((n >>> 6) &&& 0x3F), 0x80 ||| (n &&& 0x3F)]

/-- Upper-case hexadecimal digit, as `net/url` percent-encoding emits. -/
def hexUpper (n : Nat) : Char :=
  if n < 10 then Char.ofNat (48 + n) else Char.ofNat (55 + n)

/-- Bytes `net/url.QueryEscape` leaves unescaped: ASCII alphanumerics and
`-`, `_`, `.`, `~` (mode `encodeQueryComponent`). -/
def isUnreservedByte (b : Nat) : Bool :=
  (0x30 ≤ b && b ≤ 0x39) || (0x41 ≤ b && b ≤ 0x5A) || (0x61 ≤ b && b ≤ 0x7A) ||
  b == 45 || b == 95 || b == 46 || b == 126

/-- `net/url.QueryEscape`: space becomes `+`, unreserved bytes pass
through, every other byte becomes `%XX` with upper-case hex. -/
def queryEscape (s : String) : String :=
  String.join ((s.data.flatMap utf8Bytes).map fun b =>
    if b == 32 then "+"
    else if isUnreservedByte b then String.singleton (Char.ofNat b)
    else "%" ++ String.singleton (hexUpper (b / 16)) ++ String.singleton (hexUpper (b % 16)))

/-- `url.Values`: a multimap from key to the ordered list of added
values.  Go's map has no observable order here because `Encode` sorts
keys; the association list keeps keys unique. -/
abbrev Values := List (String × List String)

/-- `url.Values.Add`: append `v` to the list stored under `k`. -/
def Values.add (q : Values) (k v : String) : Values :=
  if q.any (fun kv => kv.1 == k) then
    q.map (fun kv => if kv.1 == k then (kv.1, kv.2 ++ [v]) else kv)
  else q ++ [(k, [v])]

/-- Insertion of a string into a `<`-sorted list (ascending). -/
def insertSorted (x : String) : List String → List String
  | [] => [x]
  | y :: ys => if y < x then y :: insertSorted x ys else x :: y :: ys

/-- Sorting a list of strings in ascending lexicographic order, as
`sort.Strings` does inside `url.Values.Encode`. -/
def sortStrings (l : List String) : List String := l.foldr insertSorted []

/-- First-match association lookup (Go map read). -/
def lookupAssoc {α : Type} (m : List (String × α)) (k : String) : Option α :=
  match m with
  | [] => none
  | (k', v) :: rest => if k' == k then some v else lookupAssoc rest k

/-- `url.Values.Encode`: keys sorted ascending, each value escaped and
emitted as `key=value`, pairs joined with `&`. -/
def Values.encode (q : Values) : String :=
  let keys := sortStrings (q.map Prod.fst)
  String.intercalate "&" (keys.flatMap fun k =>
    match lookupAssoc q k with
    | none => []
    | some vs => vs.map fun v => queryEscape k ++ "=" ++ queryEscape v)

/-- `openapi.Parameter` (pkg/openapi/list.go): name, declared style, and
the optional explode flag (`nil` meaning the style's default). -/
structure Parameter : Type where
  Name : String
  Style : String
  Explode : Option Bool
deriving Repr, BEq

/-- `openapi.OperationInfo` (pkg/openapi/list.go): the resolved operation
descriptor handed from `GetSchema` to `Run`. -/
structure OperationInfo : Type where
  Server : String
  Path : String
  Method : String
  BodyContentMIME : String
  QueryParams : List Parameter
  PathParams : List Parameter
  HeaderParams : List Parameter
  CookieParams : List Parameter
deriving Repr, BEq

/-- `strings.Replace(s, pat, rep, 1)` on character lists: replace the
first (leftmost, non-overlapping) occurrence of `pat`; an empty pattern
inserts `rep` at the start, as in Go. -/
def replaceFirstL (pat rep : List Char) : List Char → List Char
  | [] => if pat = [] then rep else []
  | c :: rest =>
    if pat.isPrefixOf (c :: rest) then rep ++ (c :: rest).drop pat.length
    else c :: replaceFirstL pat rep rest

/-- `strings.Replace(s, pat, rep, 1)` on strings. -/
def replaceFirst (s pat rep : String) : String :=
  ⟨replaceFirstL pat.data rep.data s.data⟩

/-- The `"{" + name + "}"` placeholder token built throughout the source. -/
def tok (name : String) : String := "\x7b" ++ name ++ "\x7d"

/-- `handlePathParameters` (run.go:141-242): for each path parameter
present in the input, serialize its value per style/explode and replace
the first occurrence of its `{name}` placeholder in the path; absent
parameters and unrecognized styles leave the path untouched. -/
def handlePathParameters (path : String) (params : List Parameter) (input : Args) : String :=
  params.foldl
    (fun path param =>
      match gjsonGet input param.Name with
      | none => path
      | some res =>
        match res with
        | .arr items =>
          let strs := items.map JValue.goString
          match param.Style with
          | "simple" | "" =>
            -- simple looks the same regardless of whether explode is true
            replaceFirst path (tok param.Name) (String.intercalate "," strs)
          | "label" =>
            if param.Explode.getD false then
              replaceFirst path (tok param.Name) ("." ++ String.intercalate "." strs)
            else -- default is to not explode
              replaceFirst path (tok param.Name) ("." ++ String.intercalate "," strs)
          | "matrix" =>
            if param.Explode.getD false then
              replaceFirst path (tok param.Name)
                (String.join (strs.map fun str => ";" ++ param.Name ++ "=" ++ str))
            else -- default is to not explode
              replaceFirst path (tok param.Name)
                (";" ++ param.Name ++ "=" ++ String.intercalate "," strs)
          | _ => path
        | .obj fields =>
          match param.Style with
          | "simple" | "" =>
            if param.Explode.getD false then
              replaceFirst path (tok param.Name)
                (String.intercalate "," (fields.map fun kv => kv.1 ++ "=" ++ kv.2.goString))
            else -- default is to not explode
              replaceFirst path (tok param.Name)
                (String.intercalate "," (fields.flatMap fun kv => [kv.1, kv.2.goString]))
          | "label" =>
            if param.Explode.getD false then
              replaceFirst path (tok param.Name)
                (String.join (fields.map fun kv => "." ++ kv.1 ++ "=" ++ kv.2.goString))
            else
              replaceFirst path (tok param.Name)
                ("." ++ String.intercalate "," (fields.flatMap fun kv => [kv.1, kv.2.goString]))
          | "matrix" =>
            if param.Explode.getD false then
              replaceFirst path (tok param.Name)
                (String.join (fields.map fun kv => ";" ++ kv.1 ++ "=" ++ kv.2.goString))
            else
              replaceFirst path (tok param.Name)
                (";" ++ param.Name ++ "=" ++
                  String.intercalate "," (fields.flatMap fun kv => [kv.1, kv.2.goString]))
          | _ => path
        | _ =>
          -- basic types: explode has no effect
          match param.Style with
          | "simple" | "" => replaceFirst path (tok param.Name) res.goString
          | "label" => replaceFirst path (tok param.Name) ("." ++ res.goString)
          | "matrix" =>
            replaceFirst path (tok param.Name) (";" ++ param.Name ++ "=" ++ res.goString)
          | _ => path)
    path

/-- `handleQueryParameters` (run.go:245-314): for each query parameter
present in the input, add its serialized value(s) to the URL query
multimap per style/explode; unrecognized style/shape combinations add
nothing, basic types are added as-is. -/
def handleQueryParameters (q : Values) (params : List Parameter) (input : Args) : Values :=
  params.foldl
    (fun q param =>
      match gjsonGet input param.Name with
      | none => q
      | some res =>
        match res with
        | .arr items =>
          match param.Style with
          | "form" | "" =>
            if param.Explode.getD true then -- default is to explode
              items.foldl (fun q item => q.add param.Name item.goString) q
            else
              q.add param.Name (String.intercalate "," (items.map JValue.goString))
          | "spaceDelimited" =>
            if param.Explode.getD true then
              items.foldl (fun q item => q.add param.Name item.goString) q
            else
              q.add param.Name (String.intercalate " " (items.map JValue.goString))
          | "pipeDelimited" =>
            if param.Explode.getD true then
              items.foldl (fun q item => q.add param.Name item.goString) q
            else
              q.add param.Name (String.intercalate "|" (items.map JValue.goString))
          | _ => q
        | .obj fields =>
          match param.Style with
          | "form" | "" =>
            if param.Explode.getD true then -- default is to explode
              fields.foldl (fun q kv => q.add kv.1 kv.2.goString) q
            else
              q.add param.Name
                (String.intercalate "," (fields.flatMap fun kv => [kv.1, kv.2.goString]))
          | "deepObject" =>
            fields.foldl (fun q kv => q.add (param.Name ++ "[" ++ kv.1 ++ "]") kv.2.goString) q
          | _ => q
        | _ => q.add param.Name res.goString)
    q

/-- `handleHeaderParameters` (run.go:317-345): one header line per
parameter present in the input; arrays comma-joined, objects as `k,v`
pairs (explode false/absent) or `k=v` pairs (explode true), scalars
as-is.  Modelled as the ordered list of `Header.Add` calls. -/
def handleHeaderParameters (headers : List (String × String)) (params : List Parameter)
    (input : Args) : List (String × String) :=
  params.foldl
    (fun hs param =>
      match gjsonGet input param.Name with
      | none => hs
      | some res =>
        match res with
        | .arr items =>
          hs ++ [(param.Name, String.intercalate "," (items.map JValue.goString))]
        | .obj fields =>
          let strs :=
            if param.Explode.getD false then -- default is to not explode
              fields.map fun kv => kv.1 ++ "=" ++ kv.2.goString
            else
              fields.flatMap fun kv => [kv.1, kv.2.goString]
          hs ++ [(param.Name, String.intercalate "," strs)]
        | _ => hs ++ [(param.Name, res.goString)])
    headers

/-- `handleCookieParameters` (run.go:348-377): one cookie per parameter
present in the input; arrays comma-joined, objects always as `k,v`
pairs (explode is never consulted), scalars as-is. -/
def handleCookieParameters (cookies : List (String × String)) (params : List Parameter)
    (input : Args) : List (String × String) :=
  params.foldl
    (fun cs param =>
      match gjsonGet input param.Name with
      | none => cs
      | some res =>
        match res with
        | .arr items =>
          cs ++ [(param.Name, String.intercalate "," (items.map JValue.goString))]
        | .obj fields =>
          cs ++ [(param.Name,
            String.intercalate "," (fields.flatMap fun kv => [kv.1, kv.2.goString]))]
        | _ => cs ++ [(param.Name, res.goString)])
    cookies

/-- The request body built by the body switch of `Run` (run.go:78-123),
tagged by the branch that produced it.  The JSON branch re-encodes the
value (an empty object when the argument is absent, `struct{}{}` in the
source); the multipart branch records its stringified fields. -/
inductive RequestBody : Type where
  | json : String → RequestBody
  | text : String → RequestBody
  | multipart : List (String × String) → RequestBody
deriving Repr, BEq

/-- The body switch of `Run` (run.go:81-121), entered only when
`BodyContentMIME` is non-empty: `application/json` and `text/plain`
encode the (possibly absent) `requestBodyContent` value;
`multipart/form-data` demands an object and fails otherwise; every
other MIME type takes the `default` branch and fails as unsupported. -/
def compileBody (mime : String) (res : Option JValue) : Except String RequestBody :=
  match mime with
  | "application/json" =>
    let reqBody := match res with
      | some v => v.raw
      | none => "\x7b\x7d"
    .ok (.json (reqBody ++ "\n")) -- json.Encoder.Encode appends a newline
  | "text/plain" =>
    .ok (.text (match res with | some v => v.goString | none => ""))
  | "multipart/form-data" =>
    match res with
    | some (.obj fields) => .ok (.multipart (fields.map fun kv => (kv.1, kv.2.goString)))
    | _ => .error "multipart/form-data requires an object as the requestBodyContent"
  | _ => .error ("unsupported MIME type: " ++ mime)

/-- Modelled contract of the standard library's `url.JoinPath` for the
well-formed absolute URLs this program produces: base and path joined
by a single slash (dot-segment cleaning and escaping of the standard
library are not exercised by the properties below). -/
def urlJoinPath (base p : String) : String :=
  base.dropRightWhile (· = '/') ++ "/" ++ p.dropWhile (· = '/')

/-- The HTTP request as assembled by `Run` just before
`http.DefaultClient.Do(req)` fires (run.go:126). -/
structure CompiledRequest : Type where
  Method : String
  URL : String
  RawQuery : String
  Headers : List (String × String)
  Cookies : List (String × String)
  Body : Option RequestBody
deriving Repr, BEq

/-- The request-compilation portion of `Run` (run.go:42-123): everything
`Run` does between successful argument validation and the
`http.DefaultClient.Do(req)` call, with the two environment lookups
(`OPENAPI_BEARER`, `OPENAPI_QUERY_KEY`, empty when unset) passed
explicitly.  The single outbound HTTP request is issued by `Run` if and
only if this compilation returns `.ok`; an `.error` propagates to the
caller before any request is made. -/
def RunCompile (opInfo : OperationInfo) (bearer queryKey : String) (args : Args) :
    Except String CompiledRequest := do
  let path := handlePathParameters opInfo.Path opInfo.PathParams args
  let u := urlJoinPath opInfo.Server path
  let headers : List (String × String) :=
    if bearer ≠ "" then [("Authorization", "Bearer " ++ bearer)] else []
  -- req.URL.Query() of the freshly joined URL (no query component) is empty
  let rawQuery := Values.encode (handleQueryParameters [] opInfo.QueryParams args)
  let rawQuery :=
    if queryKey ≠ "" then rawQuery ++ "&" ++ "key=" ++ queryEscape queryKey else rawQuery
  let headers := handleHeaderParameters headers opInfo.HeaderParams args
  let cookies := handleCookieParameters [] opInfo.CookieParams args
  if opInfo.BodyContentMIME ≠ "" then do
    let body ← compileBody opInfo.BodyContentMIME (gjsonGet args "requestBodyContent")
    .ok ⟨opInfo.Method, u, rawQuery, headers, cookies, some body⟩
  else
    .ok ⟨opInfo.Method, u, rawQuery, headers, cookies, none⟩

/-- The slice of `openapi3.SchemaRef`/`openapi3.Schema` this program
reads and writes, with the `Ref`/`Value` indirection collapsed into one
node: reference string, `Type`, `Description`, `ReadOnly`,
`Discriminator` (kept abstract as an optional marker), the recursive
`OneOf`/`AnyOf`/`AllOf`/`Not`/`Items`/`Properties` subtrees, and
`Required`.  Property maps keep document order. -/
inductive Schema : Type where
  | mk :
    (ref : String) →
    (typ : Option String) →
    (description : String) →
    (readOnly : Bool) →
    (discriminator : Option String) →
    (oneOf : List Schema) →
    (anyOf : List Schema) →
    (allOf : List Schema) →
    (notSchema : Option Schema) →
    (items : Option Schema) →
    (properties : List (String × Schema)) →
    (required : List String) →
    Schema
deriving BEq

/-- The `Properties` field of a schema node. -/
def Schema.properties : Schema → List (String × Schema)
  | .mk _ _ _ _ _ _ _ _ _ _ props _ => props

/-- The `Required` field of a schema node. -/
def Schema.required : Schema → List String
  | .mk _ _ _ _ _ _ _ _ _ _ _ req => req

/-- The `Description` field of a schema node. -/
def Schema.description : Schema → String
  | .mk _ _ desc _ _ _ _ _ _ _ _ _ => desc

/-- The `ReadOnly` field of a schema node. -/
def Schema.readOnly : Schema → Bool
  | .mk _ _ _ ro _ _ _ _ _ _ _ _ => ro

/-- Replacing the `Description` field of a schema node
(the in-place `arg.Description = ...` assignment of the source). -/
def Schema.setDescription (s : Schema) (d : String) : Schema :=
  match s with
  | .mk ref ty _ ro disc oneOf anyOf allOf notSchema items props req =>
    .mk ref ty d ro disc oneOf anyOf allOf notSchema items props req

mutual

/-- `removeRefs` (list.go:215-238): clear the `Ref` string and the
`Discriminator` at every node, recursing through
`OneOf`/`AnyOf`/`AllOf`/`Not`/`Items`/`Properties`. -/
def removeRefs : Schema → Schema
  | .mk _ref ty desc ro _disc oneOf anyOf allOf notSchema items props req =>
    .mk "" ty desc ro none (removeRefsList oneOf) (removeRefsList anyOf)
      (removeRefsList allOf) (removeRefsOpt notSchema) (removeRefsOpt items)
      (removeRefsProps props) req

/-- `removeRefs` mapped over a subtree list. -/
def removeRefsList : List Schema → List Schema
  | [] => []
  | s :: rest => removeRefs s :: removeRefsList rest

/-- `removeRefs` mapped over an optional subtree. -/
def removeRefsOpt : Option Schema → Option Schema
  | none => none
  | some s => some (removeRefs s)

/-- `removeRefs` mapped over a property map. -/
def removeRefsProps : List (String × Schema) → List (String × Schema)
  | [] => []
  | (k, s) :: rest => (k, removeRefs s) :: removeRefsProps rest

end

/-- `openapi3.ServerVariable`: declared default and enumerated values. -/
structure ServerVariable : Type where
  Default : String
  Enum : List String
deriving Repr, BEq

/-- `openapi3.Server`: URL template plus the `Variables` map
(`map[string]*ServerVariable`; `nil` entries are representable and are
skipped by `parseServer`). -/
structure Server : Type where
  URL : String
  Variables : List (String × Option ServerVariable)

/-- The per-variable substitution step of `parseServer` (list.go:197-207):
replace the first occurrence of `{name}` with the variable's `Default`,
or with its first `Enum` entry when the default is empty, or leave the
URL alone when both are missing. -/
def substVariable (s : String) (name : String) (v : ServerVariable) : String :=
  if v.Default ≠ "" then replaceFirst s (tok name) v.Default
  else
    match v.Enum with
    | e :: _ => replaceFirst s (tok name) e
    | [] => s

/-- The substitution phase of `parseServer`: fold `substVariable` over
the declared variables (skipping `nil` entries), starting from the URL
template. -/
def substServerURL (server : Server) : String :=
  server.Variables.foldl
    (fun s nv =>
      match nv.2 with
      | none => s
      | some v => substVariable s nv.1 v)
    server.URL

/-- `strings.HasPrefix` on the character lists of the two strings. -/
def hasPrefix (s pre : String) : Bool := pre.data.isPrefixOf s.data

/-- `parseServer` (list.go:195-213): substitute the server variables,
then fail unless the result starts with `http`. -/
def parseServer (server : Server) : Except String String :=
  let s := substServerURL server
  if hasPrefix s "http" then .ok s
  else .error ("invalid server URL: " ++ s ++
    " (must use HTTP or HTTPS; relative URLs not supported)")

/-- `supportedMIMETypes` (list.go:56). -/
def supportedMIMETypes : List String :=
  ["application/json", "application/x-www-form-urlencoded", "multipart/form-data"]

/-- The slice of `openapi3.Parameter` this program reads
(`param.Value` after the loader resolved the ref). -/
structure ParameterSpec : Type where
  Name : String
  Description : String
  Required : Bool
  In : String
  Style : String
  Explode : Option Bool
  Schema : Schema

/-- The slice of `openapi3.Operation` this program reads; `RequestBody`
is the operation's `Content` map (MIME type to media-type schema) when
a body is declared. -/
structure Operation : Type where
  OperationID : String
  Parameters : List ParameterSpec
  RequestBody : Option (List (String × Schema))
  Servers : Option (List Server)

/-- The slice of `openapi3.PathItem` this program reads; `Operations`
maps HTTP method to operation as `pathItem.Operations()` yields. -/
structure PathItem : Type where
  Servers : Option (List Server)
  Parameters : List ParameterSpec
  Operations : List (String × Operation)

/-- The slice of the loaded `openapi3.T` document this program reads. -/
structure T : Type where
  Servers : List Server
  Paths : List (String × PathItem)

/-- Go map assignment `m[k] = v` on an association list with unique
keys: overwrite the binding when the key is present, append otherwise. -/
def insertAssoc {α : Type} (m : List (String × α)) (k : String) (v : α) :
    List (String × α) :=
  if m.any (fun kv => kv.1 == k) then
    m.map (fun kv => if kv.1 == k then (kv.1, v) else kv)
  else m ++ [(k, v)]

/-- The per-parameter schema processing of `GetSchema` (list.go:115-120):
strip refs, then default the schema description to the parameter's
description when empty. -/
def paramArg (p : ParameterSpec) : Schema :=
  let arg := removeRefs p.Schema
  if arg.description = "" then arg.setDescription p.Description else arg

/-- The body-schema processing of `GetSchema` (list.go:157-169): strip
refs (the source's follow-up description assignment copies the schema's
own description onto itself, a no-op), then delete read-only
properties. -/
def bodyArg (sch : Schema) : Schema :=
  match removeRefs sch with
  | .mk ref ty desc ro disc oneOf anyOf allOf notSchema items props req =>
    .mk ref ty desc ro disc oneOf anyOf allOf notSchema items
      (props.filter fun kv => !kv.2.readOnly) req

/-- The parameter loop of `GetSchema` (list.go:114-146): walk the merged
parameter list, storing each parameter's processed schema under its
name in the arguments' properties (Go map overwrite), appending the
name to `Required` when the parameter is required, and bucketing a
`Parameter` record into the per-location list selected by `In`. -/
def processParameters :
    List ParameterSpec →
    List (String × Schema) × List String × OperationInfo →
    List (String × Schema) × List String × OperationInfo
  | [], st => st
  | param :: rest, (props, required, info) =>
    let props := insertAssoc props param.Name (paramArg param)
    let required := if param.Required then required ++ [param.Name] else required
    let p : Parameter := ⟨param.Name, param.Style, param.Explode⟩
    let info :=
      match param.In with
      | "query" => OperationInfo.mk info.Server info.Path info.Method info.BodyContentMIME
          (info.QueryParams ++ [p]) info.PathParams info.HeaderParams info.CookieParams
      | "path" => OperationInfo.mk info.Server info.Path info.Method info.BodyContentMIME
          info.QueryParams (info.PathParams ++ [p]) info.HeaderParams info.CookieParams
      | "header" => OperationInfo.mk info.Server info.Path info.Method info.BodyContentMIME
          info.QueryParams info.PathParams (info.HeaderParams ++ [p]) info.CookieParams
      | "cookie" => OperationInfo.mk info.Server info.Path info.Method info.BodyContentMIME
          info.QueryParams info.PathParams info.HeaderParams (info.CookieParams ++ [p])
      | _ => info
    processParameters rest (props, required, info)

/-- The body-content scan of `GetSchema` (list.go:150-154 with the
`break` at 175): the first entry of the content map whose MIME type is
in `supportedMIMETypes`, unsupported entries skipped. -/
def findSupportedMIME : List (String × Schema) → Option (String × Schema)
  | [] => none
  | (mime, sch) :: rest =>
    if supportedMIMETypes.contains mime then some (mime, sch) else findSupportedMIME rest

/-- The top-level arguments schema under construction (list.go:69-73),
with its `Properties` and `Required` filled in. -/
def mkArguments (props : List (String × Schema)) (required : List String) : Schema :=
  .mk "" (some "object") "" false none [] [] [] none none props required

/-- Processing of the matched operation inside `GetSchema`
(list.go:108-187): record server/path/method, run the parameter loop on
operation-level followed by path-item-level parameters, then resolve
the request body, failing when a body is declared but no supported MIME
type is found. -/
def processOperation (operationID path method server : String) (pi : PathItem)
    (op : Operation) : Except String (Schema × OperationInfo) :=
  let info0 : OperationInfo := ⟨server, path, method, "", [], [], [], []⟩
  let st := processParameters (op.Parameters ++ pi.Parameters) ([], [], info0)
  let props := st.1
  let required := st.2.1
  let info := st.2.2
  match op.RequestBody with
  | none => .ok (mkArguments props required, info)
  | some content =>
    match findSupportedMIME content with
    | none =>
      .error ("no supported MIME type found for request body in operation " ++ operationID)
    | some (mime, sch) =>
      .ok (mkArguments (insertAssoc props "requestBodyContent" (bodyArg sch))
          (required ++ ["requestBodyContent"]),
        ⟨info.Server, info.Path, info.Method, mime, info.QueryParams, info.PathParams,
          info.HeaderParams, info.CookieParams⟩)

/-- The inner operation scan of `GetSchema` (list.go:97-98): the first
operation of the path item whose `OperationID` matches. -/
def findOp (operationID : String) : List (String × Operation) → Option (String × Operation)
  | [] => none
  | (method, op) :: rest =>
    if op.OperationID == operationID then some (method, op) else findOp operationID rest

/-- The path scan of `GetSchema` (list.go:87-190): resolve the path-level
server override (first entry when present, the document default
otherwise), look for the operation in this path item, process it on a
match, and otherwise continue with the remaining paths.  `Ok none`
models `found == false`. -/
def goPaths (operationID defaultServer : String) :
    List (String × PathItem) → Except String (Option (Schema × OperationInfo))
  | [] => .ok none
  | (path, pi) :: rest =>
    match (match pi.Servers with
           | some (s :: _) => parseServer s
           | _ => .ok defaultServer : Except String String) with
    | .error e => .error e
    | .ok pathServer =>
      match findOp operationID pi.Operations with
      | some (method, op) =>
        match (match op.Servers with
               | some (s :: _) => parseServer s
               | _ => .ok pathServer : Except String String) with
        | .error e => .error e
        | .ok operationServer =>
          match processOperation operationID path method operationServer pi op with
          | .error e => .error e
          | .ok r => .ok (some r)
      | none => goPaths operationID defaultServer rest

/-- `GetSchema` (list.go:60-193) after the (external) document load: the
arguments schema is returned as a structure (its JSON marshalling is
external `encoding/json`), paired with the `OperationInfo`; `Ok none`
models the `found == false` return. -/
def GetSchema (operationID : String) (t : T) : Except String (Option (Schema × OperationInfo)) :=
  match (match t.Servers with
         | s :: _ => parseServer s
         | [] => .ok "" : Except String String) with
  | .error e => .error e
  | .ok defaultServer => goPaths operationID defaultServer t.Paths

/-- Whether the document declares an operation with the given
identifier (the claims' "operation identifiers present in them"). -/
def operationPresent (operationID : String) (t : T) : Bool :=
  t.Paths.any fun pp => pp.2.Operations.any fun mo => mo.2.OperationID == operationID

/-- A schema node with every field empty. -/
def emptySchema : Schema := .mk "" none "" false none [] [] [] none none [] []

/-- A document whose single operation `op` declares a request body whose
only content entry is `application/x-www-form-urlencoded` — a member of
the extraction allowlist. -/
def urlencodedDoc : T :=
  ⟨[⟨"http://s", []⟩],
   [("/p", ⟨none, [],
      [("POST", ⟨"op", [], some [("application/x-www-form-urlencoded", emptySchema)],
        none⟩)]⟩)]⟩

/-- The descriptor `GetSchema` extracts from `urlencodedDoc`. -/
def urlencodedInfo : OperationInfo :=
  ⟨"http://s", "/p", "POST", "application/x-www-form-urlencoded", [], [], [], []⟩

/-- A document whose single operation `op` declares a request body whose
content map holds no MIME type of the extraction allowlist. -/
def textPlainBodyDoc : T :=
  ⟨[⟨"http://s", []⟩],
   [("/p", ⟨none, [], [("POST", ⟨"op", [], some [("text/plain", emptySchema)], none⟩)]⟩)]⟩

end OpenAPICli

namespace OpenAPICli

/-! ## Claim theorems -/

/-- C1.  The claim says the `default` ("unsupported MIME type") branch of
`Run`'s body switch is unreachable whenever the body content type was
selected by extraction.  The code contradicts its own allowlist:
`application/x-www-form-urlencoded` is in `supportedMIMETypes`, so
extraction selects it (second conjunct), yet `Run`'s body switch has no
case for it and its `default` branch fires (last conjunct). -/
theorem urlencoded_selected_but_unsupported_in_run :
    supportedMIMETypes.contains "application/x-www-form-urlencoded" = true ∧
    GetSchema "op" urlencodedDoc =
      .ok (some (mkArguments [("requestBodyContent", bodyArg emptySchema)]
        ["requestBodyContent"], urlencodedInfo)) ∧
    RunCompile urlencodedInfo "" "" [("requestBodyContent", .obj [])] =
      .error "unsupported MIME type: application/x-www-form-urlencoded" :=
  ⟨rfl, rfl, rfl⟩

/-- C4.  Query serialization of the array `["a","b"]` bound to parameter
`tags` with style `form`: with explode absent (the default) or `true`
the encoded query string is `tags=a&tags=b`; with explode `false` it is
`tags=a%2Cb` (comma joined, percent-encoded). -/
theorem form_query_array_serialization :
    Values.encode (handleQueryParameters [] [⟨"tags", "form", none⟩]
      [("tags", .arr [.str "a", .str "b"])]) = "tags=a&tags=b" ∧
    Values.encode (handleQueryParameters [] [⟨"tags", "form", some true⟩]
      [("tags", .arr [.str "a", .str "b"])]) = "tags=a&tags=b" ∧
    Values.encode (handleQueryParameters [] [⟨"tags", "form", some false⟩]
      [("tags", .arr [.str "a", .str "b"])]) = "tags=a%2Cb" :=
  ⟨rfl, rfl, rfl⟩

/-- C7.  `parseServer` fails exactly when the URL obtained after variable
substitution does not begin with `"http"` (a string begins with `http`
or `https` iff it begins with `http`), and it fails with the
invalid-server-URL error built from that substituted URL; the document
example `https://{env}.example.com` with `env` defaulting to `api`
resolves to `https://api.example.com`, and a relative server URL fails. -/
theorem parse_server_invalid_url_iff :
    (∀ server : Server,
      parseServer server =
          .error ("invalid server URL: " ++ substServerURL server ++
            " (must use HTTP or HTTPS; relative URLs not supported)") ↔
        hasPrefix (substServerURL server) "http" = false) ∧
    parseServer ⟨"https://\x7benv\x7d.example.com", [("env", some ⟨"api", []⟩)]⟩ =
      .ok "https://api.example.com" ∧
    (∃ e, parseServer ⟨"/relative", []⟩ = .error e) := by
  refine ⟨fun server => ?_, rfl, ⟨_, rfl⟩⟩
  unfold parseServer
  by_cases h : hasPrefix (substServerURL server) "http" <;> simp [h]

/-- Witness for `parse_server_invalid_url_iff`: the iff applied at a
concrete non-HTTP server. -/
theorem parse_server_invalid_url_iff_witness :
    parseServer ⟨"ftp://host", []⟩ =
      .error ("invalid server URL: " ++ substServerURL ⟨"ftp://host", []⟩ ++
        " (must use HTTP or HTTPS; relative URLs not supported)") :=
  (parse_server_invalid_url_iff.1 ⟨"ftp://host", []⟩).mpr (by decide)

/-- C5.  For every array value bound to a path parameter with style
`simple`, the substituted path is the same for any two explode
settings: the `simple` array branch of `handlePathParameters` never
consults `Explode`. -/
theorem simple_path_array_explode_irrelevant (path n : String) (e1 e2 : Option Bool)
    (args : Args) (items : List JValue)
    (h : gjsonGet args n = some (.arr items)) :
    handlePathParameters path [⟨n, "simple", e1⟩] args =
      handlePathParameters path [⟨n, "simple", e2⟩] args := by
  simp [handlePathParameters, h]

/-- Witness for `simple_path_array_explode_irrelevant` at a concrete
document path, parameter and payload. -/
theorem simple_path_array_explode_irrelevant_witness :
    handlePathParameters "/pets/\x7bid\x7d" [⟨"id", "simple", some true⟩]
        [("id", .arr [.str "3", .str "4"])] =
      handlePathParameters "/pets/\x7bid\x7d" [⟨"id", "simple", some false⟩]
        [("id", .arr [.str "3", .str "4"])] :=
  simple_path_array_explode_irrelevant "/pets/\x7bid\x7d" "id" (some true) (some false)
    [("id", .arr [.str "3", .str "4"])] [.str "3", .str "4"] rfl

/-- C6.  A style that is not recognized for the shape of the value is a
no-op and raises no error (all serialization passes are total
functions): `deepObject` with an array adds nothing to the query,
`deepObject` with a string scalar passes the value through unmodified
(the scalar branch ignores the style), and `form` with an array in path
position leaves the path untouched. -/
theorem unrecognized_style_noop :
    (∀ (q : Values) (n : String) (e : Option Bool) (args : Args) (items : List JValue),
      gjsonGet args n = some (.arr items) →
      handleQueryParameters q [⟨n, "deepObject", e⟩] args = q) ∧
    (∀ (q : Values) (n : String) (e : Option Bool) (args : Args) (s : String),
      gjsonGet args n = some (.str s) →
      handleQueryParameters q [⟨n, "deepObject", e⟩] args = q.add n s) ∧
    (∀ (path n : String) (e : Option Bool) (args : Args) (items : List JValue),
      gjsonGet args n = some (.arr items) →
      handlePathParameters path [⟨n, "form", e⟩] args = path) := by
  refine ⟨fun q n e args items h => ?_, fun q n e args s h => ?_,
    fun path n e args items h => ?_⟩
  · simp [handleQueryParameters, h]
  · simp [handleQueryParameters, h, JValue.goString]
  · simp [handlePathParameters, h]

/-- Witness for `unrecognized_style_noop`: all three parts at concrete
inputs. -/
theorem unrecognized_style_noop_witness :
    handleQueryParameters [] [⟨"f", "deepObject", none⟩] [("f", .arr [.str "a"])] = [] ∧
    handleQueryParameters [] [⟨"f", "deepObject", none⟩] [("f", .str "a")] =
      Values.add [] "f" "a" ∧
    handlePathParameters "/p/\x7bf\x7d" [⟨"f", "form", none⟩] [("f", .arr [.str "a"])] =
      "/p/\x7bf\x7d" :=
  ⟨unrecognized_style_noop.1 [] "f" none [("f", .arr [.str "a"])] [.str "a"] rfl,
   unrecognized_style_noop.2.1 [] "f" none [("f", .str "a")] "a" rfl,
   unrecognized_style_noop.2.2 "/p/\x7bf\x7d" "f" none [("f", .arr [.str "a"])] [.str "a"] rfl⟩

/-- C8.  When the operation's body content type is
`multipart/form-data` and the `requestBodyContent` member of the
payload is not a JSON object (including when it is absent), request
compilation fails with the invalid-body-shape error; `Run` issues its
HTTP request only on an `.ok` compilation, so no request is made. -/
theorem multipart_non_object_fails (opInfo : OperationInfo) (bearer queryKey : String)
    (args : Args)
    (hm : opInfo.BodyContentMIME = "multipart/form-data")
    (hb : ∀ fields, gjsonGet args "requestBodyContent" ≠ some (.obj fields)) :
    RunCompile opInfo bearer queryKey args =
      .error "multipart/form-data requires an object as the requestBodyContent" := by
  rcases hr : gjsonGet args "requestBodyContent" with _ | v
  · simp only [RunCompile, hm, hr]; rfl
  · cases v with
    | obj fields => exact absurd hr (hb fields)
    | null => simp only [RunCompile, hm, hr]; rfl
    | bool b => simp only [RunCompile, hm, hr]; rfl
    | num n => simp only [RunCompile, hm, hr]; rfl
    | str s => simp only [RunCompile, hm, hr]; rfl
    | arr items => simp only [RunCompile, hm, hr]; rfl

/-- Witness for `multipart_non_object_fails`: a string-valued body
argument on a multipart operation. -/
theorem multipart_non_object_fails_witness :
    RunCompile ⟨"http://s", "/p", "POST", "multipart/form-data", [], [], [], []⟩ "" ""
        [("requestBodyContent", .str "x")] =
      .error "multipart/form-data requires an object as the requestBodyContent" :=
  multipart_non_object_fails ⟨"http://s", "/p", "POST", "multipart/form-data", [], [], [], []⟩
    "" "" [("requestBodyContent", .str "x")] rfl (by intro fields h; simp [gjsonGet] at h)

/-- C10.  When the `OPENAPI_QUERY_KEY` environment value is non-empty,
the final query string is the serialized parameter query followed by a
literal `&`, then `key=`, then the URL-escaped value — in particular a
stray leading `&` when the operation contributes no query pairs. -/
theorem query_key_appended (opInfo : OperationInfo) (bearer queryKey : String) (args : Args)
    (hk : queryKey ≠ "") (hb : opInfo.BodyContentMIME = "") :
    ∃ req, RunCompile opInfo bearer queryKey args = .ok req ∧
      req.RawQuery =
        Values.encode (handleQueryParameters [] opInfo.QueryParams args) ++ "&" ++ "key=" ++
          queryEscape queryKey ∧
      (Values.encode (handleQueryParameters [] opInfo.QueryParams args) = "" →
        req.RawQuery = "&" ++ "key=" ++ queryEscape queryKey) := by
  refine ⟨⟨opInfo.Method,
    urlJoinPath opInfo.Server (handlePathParameters opInfo.Path opInfo.PathParams args),
    Values.encode (handleQueryParameters [] opInfo.QueryParams args) ++ "&" ++ "key=" ++
      queryEscape queryKey,
    handleHeaderParameters (if bearer = "" then [] else [("Authorization", "Bearer " ++ bearer)])
      opInfo.HeaderParams args,
    handleCookieParameters [] opInfo.CookieParams args, none⟩, ?_, rfl, fun h0 => ?_⟩
  · simp [RunCompile, hk, hb]
  · show Values.encode (handleQueryParameters [] opInfo.QueryParams args) ++ "&" ++ "key=" ++
      queryEscape queryKey = "&" ++ "key=" ++ queryEscape queryKey
    rw [h0]
    rfl

/-- C2 counterexample.  Server resolution does NOT replace every
occurrence of a variable token: with URL template
`https://{v}.example.com/{v}` and variable `v` defaulting to `a`,
`parseServer` yields `https://a.example.com/{v}` — the second
occurrence survives — rather than the claim's `https://a.example.com/a`. -/
theorem parseServer_keeps_second_occurrence :
    parseServer ⟨"https://\x7bv\x7d.example.com/\x7bv\x7d", [("v", some ⟨"a", []⟩)]⟩ =
      .ok "https://a.example.com/\x7bv\x7d" ∧
    ("https://a.example.com/\x7bv\x7d" : String) ≠ "https://a.example.com/a" :=
  ⟨rfl, by decide⟩

/-- The leftmost occurrence of `pat` in the decomposition `a ++ pat ++ b`
is the one shown: no occurrence of `pat` starts at a position inside
`a` (including occurrences that straddle the end of `a`). -/
def firstOccurrenceAt (a pat b : String) : Prop :=
  ∀ i, i < a.data.length →
    ¬ (pat.data.isPrefixOf ((a.data ++ (pat.data ++ b.data)).drop i) = true)

instance (a pat b : String) : Decidable (firstOccurrenceAt a pat b) := by
  unfold firstOccurrenceAt; infer_instance

/-- `replaceFirstL` rewrites exactly the leftmost occurrence: when no
occurrence of `pat` starts before position `|a|`, the occurrence at
`|a|` is replaced and the suffix `b` is kept verbatim. -/
theorem replaceFirstL_leftmost (pat rep b : List Char) (hpat : pat ≠ []) :
    ∀ a : List Char,
      (∀ i, i < a.length → ¬ (pat.isPrefixOf ((a ++ (pat ++ b)).drop i) = true)) →
      replaceFirstL pat rep (a ++ (pat ++ b)) = a ++ (rep ++ b) := by
  intro a
  induction a with
  | nil =>
    intro _
    rw [List.nil_append, List.nil_append]
    cases pat with
    | nil => exact absurd rfl hpat
    | cons p pr =>
      rw [List.cons_append, replaceFirstL]
      rw [if_pos (by
        rw [← List.cons_append, List.isPrefixOf_iff_prefix]
        exact List.prefix_append _ _)]
      rw [← List.cons_append, List.drop_left]
  | cons c a' ih =>
    intro hocc
    rw [List.cons_append, replaceFirstL]
    rw [if_neg (by
      have h0 := hocc 0 (Nat.succ_pos _)
      rw [List.drop_zero, List.cons_append] at h0
      simpa using h0)]
    rw [ih (fun i hi => by
      have := hocc (i + 1) (by simpa using Nat.succ_lt_succ hi)
      rw [List.cons_append, List.drop_succ_cons] at this
      exact this), List.cons_append]

/-- C2 (amended).  For every declared server variable, the substitution
step of server resolution replaces the FIRST occurrence of the token
`{variableName}` in the URL template with the variable's declared
default (or with its first enumerated value when no default exists);
later occurrences are left unreplaced.  The URL is decomposed as
`a ++ {name} ++ b` with the shown occurrence the leftmost one, and the
suffix `b` — which may contain further occurrences — comes through
verbatim. -/
theorem substVariable_replaces_first_occurrence (name d e a b : String)
    (enum : List String) (hfirst : firstOccurrenceAt a (tok name) b) :
    (d ≠ "" → substVariable (a ++ tok name ++ b) name ⟨d, enum⟩ = a ++ d ++ b) ∧
    substVariable (a ++ tok name ++ b) name ⟨"", e :: enum⟩ = a ++ e ++ b := by
  have htokne : (tok name).data ≠ [] := by
    show ('{' :: (name.data ++ ['}'])) ≠ []
    simp
  have key : ∀ rep : String,
      replaceFirst (a ++ tok name ++ b) (tok name) rep = a ++ rep ++ b := by
    intro rep
    show String.mk (replaceFirstL (tok name).data rep.data (a ++ tok name ++ b).data) =
      a ++ rep ++ b
    have hdata : (a ++ tok name ++ b).data = a.data ++ ((tok name).data ++ b.data) := by
      show a.data ++ (tok name).data ++ b.data = _
      rw [List.append_assoc]
    rw [hdata, replaceFirstL_leftmost (tok name).data rep.data b.data htokne a.data hfirst]
    show String.mk _ = String.mk (a.data ++ rep.data ++ b.data)
    rw [List.append_assoc]
  refine ⟨fun hd => ?_, ?_⟩
  · unfold substVariable
    rw [if_pos (by simpa using hd)]
    exact key d
  · unfold substVariable
    rw [if_neg (by simp)]
    exact key e

/-- Witness for `substVariable_replaces_first_occurrence`: with template
`https://{v}.example.com/{v}` decomposed around its first `{v}`, the
default `a` replaces only that occurrence and the trailing `{v}` in the
suffix survives. -/
theorem substVariable_replaces_first_occurrence_witness :
    substVariable ("https://" ++ tok "v" ++ ".example.com/\x7bv\x7d") "v" ⟨"a", []⟩ =
      "https://" ++ "a" ++ ".example.com/\x7bv\x7d" ∧
    substVariable ("https://" ++ tok "v" ++ ".example.com/\x7bv\x7d") "v" ⟨"", ["eu"]⟩ =
      "https://" ++ "eu" ++ ".example.com/\x7bv\x7d" :=
  ⟨(substVariable_replaces_first_occurrence "v" "a" "eu" "https://" ".example.com/\x7bv\x7d"
      [] (by decide)).1 (by decide),
   (substVariable_replaces_first_occurrence "v" "a" "eu" "https://" ".example.com/\x7bv\x7d"
      [] (by decide)).2⟩

/-- Witness for `query_key_appended`: an operation with no query
parameters and query key `v` yields the raw query `&key=v`. -/
theorem query_key_appended_witness :
    ∃ req, RunCompile ⟨"http://s", "/p", "GET", "", [], [], [], []⟩ "" "v" [] = .ok req ∧
      req.RawQuery = "&key=v" := by
  obtain ⟨req, h1, _, h3⟩ :=
    query_key_appended ⟨"http://s", "/p", "GET", "", [], [], [], []⟩ "" "v" []
      (by decide) rfl
  exact ⟨req, h1, by simpa using h3 rfl⟩

/-- Overwriting an existing key leaves the key list unchanged. -/
theorem keys_map_replace {α : Type} (m : List (String × α)) (k : String) (v : α) :
    (m.map fun kv => if kv.1 == k then (kv.1, v) else kv).map Prod.fst = m.map Prod.fst := by
  induction m with
  | nil => rfl
  | cons kv rest ih =>
    simp only [List.map_cons, ih]
    by_cases h : (kv.1 == k) = true
    · rw [if_pos h]
    · rw [if_neg h]

/-- After `insertAssoc m k v`, the key list contains `k` and every key
of `m`. -/
theorem mem_keys_insertAssoc {α : Type} (m : List (String × α)) (k : String) (v : α)
    (x : String) (hx : x ∈ m.map Prod.fst ∨ x = k) :
    x ∈ (insertAssoc m k v).map Prod.fst := by
  unfold insertAssoc
  by_cases hany : (m.any fun kv => kv.1 == k) = true
  · rw [if_pos hany, keys_map_replace]
    rcases hx with hx | rfl
    · exact hx
    · rcases List.any_eq_true.mp hany with ⟨kv, hkv, hbeq⟩
      exact List.mem_map.mpr ⟨kv, hkv, by simpa using hbeq⟩
  · rw [if_neg hany]
    rcases hx with hx | rfl
    · simp [hx]
    · simp

/-- Invariant of the parameter loop: if every required name is already a
property key, the same holds after processing any further parameters. -/
theorem processParameters_subset (params : List ParameterSpec) :
    ∀ (props : List (String × Schema)) (required : List String) (info : OperationInfo),
      (∀ x ∈ required, x ∈ props.map Prod.fst) →
      ∀ x ∈ (processParameters params (props, required, info)).2.1,
        x ∈ (processParameters params (props, required, info)).1.map Prod.fst := by
  induction params with
  | nil => intro props required info h; simpa [processParameters] using h
  | cons param rest ih =>
    intro props required info h
    simp only [processParameters]
    apply ih
    intro x hx
    by_cases hreq : param.Required = true
    · rw [if_pos hreq] at hx
      rcases List.mem_append.mp hx with hx | hx
      · exact mem_keys_insertAssoc props param.Name _ x (.inl (h x hx))
      · exact mem_keys_insertAssoc props param.Name _ x (.inr (by simpa using hx))
    · rw [if_neg hreq] at hx
      exact mem_keys_insertAssoc props param.Name _ x (.inl (h x hx))

/-- Every successful `processOperation` yields an arguments schema whose
required names are all property keys. -/
theorem processOperation_subset (oid path method server : String) (pi : PathItem)
    (op : Operation) (sch : Schema) (info : OperationInfo)
    (h : processOperation oid path method server pi op = .ok (sch, info)) :
    ∀ x ∈ sch.required, x ∈ sch.properties.map Prod.fst := by
  have hsub := processParameters_subset (op.Parameters ++ pi.Parameters) [] []
    ⟨server, path, method, "", [], [], [], []⟩ (by simp)
  unfold processOperation at h
  rcases hrb : op.RequestBody with _ | content
  · simp only [hrb, Except.ok.injEq, Prod.mk.injEq] at h
    obtain ⟨hsch, _⟩ := h
    subst hsch
    simpa [mkArguments, Schema.required, Schema.properties] using hsub
  · simp only [hrb] at h
    rcases hfs : findSupportedMIME content with _ | ⟨mime, msch⟩
    · simp only [hfs] at h
      exact absurd h (by simp)
    · simp only [hfs, Except.ok.injEq, Prod.mk.injEq] at h
      obtain ⟨hsch, _⟩ := h
      subst hsch
      intro x hx
      simp only [mkArguments, Schema.required, Schema.properties] at hx ⊢
      rcases List.mem_append.mp hx with hx | hx
      · exact mem_keys_insertAssoc _ _ _ x (.inl (hsub x hx))
      · exact mem_keys_insertAssoc _ _ _ x (.inr (by simpa using hx))

/-- When the operation scan finds nothing, no operation of the list has
the requested identifier. -/
theorem findOp_eq_none (oid : String) :
    ∀ ops : List (String × Operation), findOp oid ops = none →
      (ops.any fun mo => mo.2.OperationID == oid) = false := by
  intro ops
  induction ops with
  | nil => intro _; rfl
  | cons mo rest ih =>
    obtain ⟨method, op⟩ := mo
    intro h
    rw [findOp] at h
    by_cases hid : (op.OperationID == oid) = true
    · rw [if_pos hid] at h; exact absurd h (by simp)
    · rw [if_neg hid] at h
      simp only [List.any_cons, Bool.or_eq_false_iff]
      exact ⟨by simpa using hid, ih h⟩

/-- The path scan: a successful result is `some` whenever the identifier
occurs in the scanned paths, and any returned schema has its required
names among its property keys. -/
theorem goPaths_ok (oid ds : String) :
    ∀ (paths : List (String × PathItem)) (r : Option (Schema × OperationInfo)),
      goPaths oid ds paths = .ok r →
      ((paths.any fun pp => pp.2.Operations.any fun mo => mo.2.OperationID == oid) = true →
        ∃ p, r = some p) ∧
      (∀ sch info, r = some (sch, info) →
        ∀ x ∈ sch.required, x ∈ sch.properties.map Prod.fst) := by
  intro paths
  induction paths with
  | nil =>
    intro r h
    rw [goPaths] at h
    simp only [Except.ok.injEq] at h
    subst h
    exact ⟨fun hp => by simp at hp, fun sch info hsi => by simp at hsi⟩
  | cons pp rest ih =>
    obtain ⟨path, pi⟩ := pp
    intro r h
    rw [goPaths] at h
    rcases hfo : findOp oid pi.Operations with _ | ⟨method, op⟩ <;> simp only [hfo] at h
    · -- identifier not in this path item: recurse
      have hnone := findOp_eq_none oid pi.Operations hfo
      rcases hsv : pi.Servers with _ | sl
      · simp only [hsv] at h
        obtain ⟨ihp, ihs⟩ := ih r h
        refine ⟨fun hp => ihp ?_, ihs⟩
        simpa [List.any_cons, hnone] using hp
      · rcases sl with _ | ⟨s, ss⟩ <;> simp only [hsv] at h
        · obtain ⟨ihp, ihs⟩ := ih r h
          refine ⟨fun hp => ihp ?_, ihs⟩
          simpa [List.any_cons, hnone] using hp
        · rcases hps : parseServer s with e | ps <;> simp only [hps] at h
          · exact absurd h (by simp)
          · obtain ⟨ihp, ihs⟩ := ih r h
            refine ⟨fun hp => ihp ?_, ihs⟩
            simpa [List.any_cons, hnone] using hp
    · -- identifier found in this path item
      have hfin : ∀ (os : String),
          (match processOperation oid path method os pi op with
            | .error e => (.error e : Except String (Option (Schema × OperationInfo)))
            | .ok r' => .ok (some r')) = .ok r →
          (∃ p, r = some p) ∧
          (∀ sch info, r = some (sch, info) →
            ∀ x ∈ sch.required, x ∈ sch.properties.map Prod.fst) := by
        intro os h'
        rcases hpo : processOperation oid path method os pi op with e | p <;>
          simp only [hpo] at h'
        · exact absurd h' (by simp)
        · simp only [Except.ok.injEq] at h'
          subst h'
          refine ⟨⟨p, rfl⟩, fun sch info hsi => ?_⟩
          simp only [Option.some.injEq] at hsi
          subst hsi
          exact processOperation_subset oid path method os pi op sch info hpo
      -- resolve the two server matches, then apply hfin
      rcases hsv : pi.Servers with _ | sl
      · simp only [hsv] at h
        rcases hosv : op.Servers with _ | osl
        · simp only [hosv] at h
          exact (fun hh => ⟨fun _ => hh.1, hh.2⟩) (hfin ds h)
        · rcases osl with _ | ⟨s, ss⟩ <;> simp only [hosv] at h
          · exact (fun hh => ⟨fun _ => hh.1, hh.2⟩) (hfin ds h)
          · rcases hps : parseServer s with e | ps <;> simp only [hps] at h
            · exact absurd h (by simp)
            · exact (fun hh => ⟨fun _ => hh.1, hh.2⟩) (hfin ps h)
      · rcases sl with _ | ⟨s0, ss0⟩
        · simp only [hsv] at h
          rcases hosv : op.Servers with _ | osl
          · simp only [hosv] at h
            exact (fun hh => ⟨fun _ => hh.1, hh.2⟩) (hfin ds h)
          · rcases osl with _ | ⟨s, ss⟩ <;> simp only [hosv] at h
            · exact (fun hh => ⟨fun _ => hh.1, hh.2⟩) (hfin ds h)
            · rcases hps : parseServer s with e | ps <;> simp only [hps] at h
              · exact absurd h (by simp)
              · exact (fun hh => ⟨fun _ => hh.1, hh.2⟩) (hfin ps h)
        · simp only [hsv] at h
          rcases hps0 : parseServer s0 with e0 | ps0 <;> simp only [hps0] at h
          · exact absurd h (by simp)
          · rcases hosv : op.Servers with _ | osl
            · simp only [hosv] at h
              exact (fun hh => ⟨fun _ => hh.1, hh.2⟩) (hfin ps0 h)
            · rcases osl with _ | ⟨s, ss⟩ <;> simp only [hosv] at h
              · exact (fun hh => ⟨fun _ => hh.1, hh.2⟩) (hfin ps0 h)
              · rcases hps : parseServer s with e | ps <;> simp only [hps] at h
                · exact absurd h (by simp)
                · exact (fun hh => ⟨fun _ => hh.1, hh.2⟩) (hfin ps h)

/-- C3 counterexample.  The claim quantifies over ALL documents with the
identifier present, but extraction can fail on such a document: the
single operation `op` of `textPlainBodyDoc` is present, yet `GetSchema`
returns the unsupported-body-MIME error (so `found` is `false` and no
schema is produced). -/
theorem getSchema_error_though_present :
    operationPresent "op" textPlainBodyDoc = true ∧
    GetSchema "op" textPlainBodyDoc =
      .error "no supported MIME type found for request body in operation op" :=
  ⟨rfl, rfl⟩

/-- C3 (amended).  For all documents and operation identifiers,
whenever `GetSchema` returns without error: the result is `found=true`
(i.e. `some`) if the identifier is present in the document, and any
returned schema has a `required` list that is a subset of its
`properties` keys. -/
theorem getSchema_ok_found_and_required_subset (t : T) (oid : String)
    (r : Option (Schema × OperationInfo)) (h : GetSchema oid t = .ok r) :
    (operationPresent oid t = true → ∃ p, r = some p) ∧
    (∀ sch info, r = some (sch, info) →
      ∀ x ∈ sch.required, x ∈ sch.properties.map Prod.fst) := by
  unfold GetSchema at h
  rcases hsv : t.Servers with _ | ⟨s, ss⟩ <;> simp only [hsv] at h
  · exact goPaths_ok oid "" t.Paths r h
  · rcases hps : parseServer s with e | ds <;> simp only [hps] at h
    · exact absurd h (by simp)
    · exact goPaths_ok oid ds t.Paths r h

/-- Witness document for the amended C3: one operation with a required
query parameter and a JSON body. -/
def subsetWitnessDoc : T :=
  ⟨[⟨"http://s", []⟩],
   [("/w", ⟨none, [],
      [("GET", ⟨"opw", [⟨"q1", "", true, "query", "form", none, emptySchema⟩],
        some [("application/json", emptySchema)], none⟩)]⟩)]⟩

/-- The result `GetSchema` computes on `subsetWitnessDoc`. -/
def subsetWitnessResult : Option (Schema × OperationInfo) :=
  some (mkArguments
      [("q1", paramArg ⟨"q1", "", true, "query", "form", none, emptySchema⟩),
       ("requestBodyContent", bodyArg emptySchema)]
      ["q1", "requestBodyContent"],
    ⟨"http://s", "/w", "GET", "application/json", [⟨"q1", "form", none⟩], [], [], []⟩)

/-- Witness for `getSchema_ok_found_and_required_subset` at
`subsetWitnessDoc`. -/
theorem getSchema_ok_found_and_required_subset_witness :
    (operationPresent "opw" subsetWitnessDoc = true → ∃ p, subsetWitnessResult = some p) ∧
    (∀ sch info, subsetWitnessResult = some (sch, info) →
      ∀ x ∈ sch.required, x ∈ sch.properties.map Prod.fst) :=
  getSchema_ok_found_and_required_subset subsetWitnessDoc "opw" subsetWitnessResult rfl

/-- A document whose operation `op` declares a query parameter named `n`
(schema `A`) at the operation level and another query parameter with
the same name `n` (schema `B`) at the path-item level. -/
def dupParamDoc (n : String) (A B : Schema) : T :=
  ⟨[⟨"http://s", []⟩],
   [("/p", ⟨none, [⟨n, "pd", false, "query", "form", none, B⟩],
      [("GET", ⟨"op", [⟨n, "od", false, "query", "form", none, A⟩], none, none⟩)]⟩)]⟩

/-- C9.  Parameter merging processes operation-level entries first and
path-item-level entries second, so for a name declared at both levels
the path-item-level schema `B` overwrites the operation-level schema
`A` in the argument schema's properties map, while BOTH occurrences
remain in the descriptor's query-parameter list; the query pass then
serializes each of the two occurrences onto the wire (two pairs under
the same key). -/
theorem path_item_param_shadows_but_both_serialized (n : String) (A B : Schema) :
    GetSchema "op" (dupParamDoc n A B) =
      .ok (some (mkArguments [(n, paramArg ⟨n, "pd", false, "query", "form", none, B⟩)] [],
        ⟨"http://s", "/p", "GET", "", [⟨n, "form", none⟩, ⟨n, "form", none⟩], [], [], []⟩)) ∧
    (∀ v : String,
      handleQueryParameters [] [⟨n, "form", none⟩, ⟨n, "form", none⟩] [(n, .str v)] =
        [(n, [v, v])]) := by
  have hsrv : parseServer ⟨"http://s", []⟩ = .ok "http://s" := rfl
  constructor
  · simp [GetSchema, dupParamDoc, hsrv, goPaths, findOp, processOperation,
      processParameters, insertAssoc, mkArguments]
  · intro v
    simp [handleQueryParameters, gjsonGet, Values.add, JValue.goString]

end OpenAPICli
